import Mathlib

set_option maxRecDepth 100000

deriving instance DecidableEq for Except

/-
Verification of the Quantum Key Distribution & Session Management subsystem:
the BB84 channel simulator (`src/quantum_engine/bb84_simulator.py`) and the
Key Management Service (`src/kms/key_management_service.py`).

Modelling conventions:
* Python floats that hold channel error rates are modelled as exact fractions
  (`Frac`, a numerator/denominator pair of naturals).  Every error rate the
  code computes is `errors / sifted_count` or the literal `1.0`, and the two
  literals it is compared against (`0.05`, `0.11`) are decimal fractions, so
  the comparisons performed by the code are faithfully represented by exact
  cross-multiplication comparisons.
* Every call to the `random` module is modelled as an explicit input: the
  structure `BB84Draws` carries one boolean (or one drawn bit) per random
  decision the simulator makes.  Theorems quantify over all outcomes.
* Python `bytes` values are lists of naturals below 256.
* The Python `dict`s of the KMS are modelled as association lists with
  overwrite-on-insert semantics; `frozenset({a, b})` keys are modelled as
  `Finset String`.
* The HKDF-SHA256 primitive comes from the external `cryptography` library
  (out of repository scope); it is modelled as an abstract deterministic
  function of the input key material and the info string.
-/

namespace QSTCS

/-- An exact non-negative fraction `num / den`.  Models the Python floats that
hold QBER values; all of them are quotients of small naturals, and the code
only ever compares them against other such fractions. -/
structure Frac where
  num : Nat
  den : Nat
deriving DecidableEq, Repr, Inhabited

/-- Value comparison `a < b` of two fractions by cross multiplication
(both denominators are positive everywhere this is used). -/
def fracLt (a b : Frac) : Bool := decide (a.num * b.den < b.num * a.den)

/-- Value equality `a = b` of two fractions by cross multiplication. -/
def fracEqv (a b : Frac) : Prop := a.num * b.den = b.num * a.den

instance (a b : Frac) : Decidable (fracEqv a b) := by
  unfold fracEqv; infer_instance

/-- Quantum link health status (`LinkStatus` in `kms/key_management_service.py`).
The spec's session-status names SECURE / ELEVATED / COMPROMISED correspond to
GREEN / YELLOW / RED. -/
inductive LinkStatus where
  | GREEN
  | YELLOW
  | RED
deriving DecidableEq, Repr, Inhabited

/-- `QBER_SECURITY_THRESHOLD = 0.11` from `quantum_engine/bb84_simulator.py`,
line 49.  The single module-level constant; the KMS imports it. -/
def QBER_SECURITY_THRESHOLD : Frac := ⟨11, 100⟩

/-- `KEY_LENGTH_BITS = 256` from `bb84_simulator.py`. -/
def KEY_LENGTH_BITS : Nat := 256

/-- `KEY_LENGTH_BYTES = 32` from `bb84_simulator.py`. -/
def KEY_LENGTH_BYTES : Nat := 32

/-- One outcome of all random draws made by a single `simulate_bb84` call.
Positions are indexed by qubit number; each list entry is the value produced
by the corresponding call into Python's `random` module (a missing entry is
read as `false` / bit 0, which only widens the space of outcomes quantified
over). `interceptDraws i` is the outcome of `random.random() < eve_intercept_rate`
at position `i`, `noiseDraws i` the outcome of `random.random() < noise_level`,
and `bobDraws i` the bit `random.randint(0, 1)` Bob obtains when his result is
random. -/
structure BB84Draws where
  aliceBits : List Bool
  aliceBases : List Bool
  bobBases : List Bool
  eveBases : List Bool
  interceptDraws : List Bool
  bobDraws : List Bool
  noiseDraws : List Bool
deriving DecidableEq, Repr, Inhabited

/-- `int(''.join(str(b) for b in bits), 2)`: big-endian binary value of a bit
list. -/
def bitsToNat (bits : List Bool) : Nat :=
  bits.foldl (fun n b => 2 * n + (bif b then 1 else 0)) 0

/-- `n.to_bytes(len, byteorder='big')` for `n < 256 ^ len`. -/
def natToBytes (n len : Nat) : List Nat :=
  (List.range len).map (fun i => n / 256 ^ (len - 1 - i) % 256)

/-- Whether position `i` is disturbed by Eve: Eve is present, intercepts the
qubit, and guesses a basis different from Alice's (`bb84_simulator.py`,
lines 155-168). -/
def eveDisturbed (evePresent : Bool) (d : BB84Draws) (i : Nat) : Bool :=
  evePresent && d.interceptDraws.getD i false &&
    !(d.eveBases.getD i false == d.aliceBases.getD i false)

/-- Bob's measurement result at position `i` (`bb84_simulator.py`,
lines 170-188). -/
def bobResult (evePresent : Bool) (d : BB84Draws) (i : Nat) : Bool :=
  if d.bobBases.getD i false == d.aliceBases.getD i false then
    if eveDisturbed evePresent d i then d.bobDraws.getD i false
    else if d.noiseDraws.getD i false then !(d.aliceBits.getD i false)
    else d.aliceBits.getD i false
  else d.bobDraws.getD i false

/-- Positions retained by sifting: Alice's and Bob's bases agree
(`bb84_simulator.py`, lines 200-203). -/
def siftedPositions (numBits : Nat) (d : BB84Draws) : List Nat :=
  (List.range numBits).filter
    (fun i => d.aliceBases.getD i false == d.bobBases.getD i false)

/-- `sifted_alice_bits`. -/
def siftedAliceBits (numBits : Nat) (d : BB84Draws) : List Bool :=
  (siftedPositions numBits d).map (fun i => d.aliceBits.getD i false)

/-- Number of sifted positions where Alice's bit and Bob's result disagree
(`bb84_simulator.py`, lines 216-218). -/
def bb84Errors (numBits : Nat) (evePresent : Bool) (d : BB84Draws) : Nat :=
  ((siftedPositions numBits d).filter
    (fun i => !(d.aliceBits.getD i false == bobResult evePresent d i))).length

/-- The QBER computed in phase 5 (`bb84_simulator.py`, lines 212-219):
`1.0` when no position survived sifting, otherwise `errors / sifted_count`. -/
def bb84Qber (numBits : Nat) (evePresent : Bool) (d : BB84Draws) : Frac :=
  if (siftedPositions numBits d).length = 0 then ⟨1, 1⟩
  else ⟨bb84Errors numBits evePresent d, (siftedPositions numBits d).length⟩

/-- Phase 7 key extraction (`bb84_simulator.py`, lines 236-249): take the
first 256 sifted Alice bits, or pad with zero bits, and pack big-endian into
32 bytes; an all-zero 32-byte key when nothing survived sifting. -/
def bb84Key (numBits : Nat) (d : BB84Draws) : List Nat :=
  let bits := siftedAliceBits numBits d
  if KEY_LENGTH_BITS ≤ bits.length then
    natToBytes (bitsToNat (bits.take KEY_LENGTH_BITS)) KEY_LENGTH_BYTES
  else if bits.length = 0 then
    List.replicate KEY_LENGTH_BYTES 0
  else
    natToBytes (bitsToNat (bits ++ List.replicate (KEY_LENGTH_BITS - bits.length) false))
      KEY_LENGTH_BYTES

/-- `simulate_bb84` (`bb84_simulator.py`, lines 59-251) as a function of the
call parameters and one outcome of all random draws.  Returns
`(shared_key, qber, attack_detected)`.  The `eve_intercept_rate` and
`noise_level` float parameters act only through the per-position comparison
outcomes recorded in `d` (`interceptDraws` and `noiseDraws`); rate `0.0`
forces `false` and rate `1.0` forces `true`, since `random.random()` lies in
`[0, 1)`. -/
def simulate_bb84 (numBits : Nat) (evePresent : Bool) (d : BB84Draws) :
    List Nat × Frac × Bool :=
  (bb84Key numBits d, bb84Qber numBits evePresent d,
    fracLt QBER_SECURITY_THRESHOLD (bb84Qber numBits evePresent d))

/-- A paired key-exchange session (`Session` dataclass,
`key_management_service.py`, lines 51-63).  The `created_at` timestamp and the
`messages_encrypted` counter are not modelled: no claim and no control flow of
the verified subsystem depends on them. -/
structure Session where
  session_id : String
  initiator : String
  peer : String
  key : List Nat
  qber : Frac
  status : LinkStatus
  joined : Bool
  pqc_enabled : Bool
deriving DecidableEq, Repr, Inhabited

/-- `KMSMetrics` dataclass (`key_management_service.py`, lines 66-75).  A
history sample keeps the qber and the `eve_present` flag; the wall-clock
timestamp is not modelled. -/
structure KMSMetrics where
  total_keys_issued : Nat
  total_sessions : Nat
  attacks_detected : Nat
  active_sessions : Nat
  last_qber : Frac
  link_status : LinkStatus
  qber_history : List (Frac × Bool)
deriving DecidableEq, Repr, Inhabited

/-- The all-zero initial metrics (dataclass field defaults). -/
def KMSMetrics.initial : KMSMetrics :=
  ⟨0, 0, 0, 0, ⟨0, 1⟩, LinkStatus.GREEN, []⟩

/-- `frozenset({a, b})`: the unordered pair of two device identities, the key
of the KMS pairing index.  `frozenset({x, x})` is the singleton `{x}`, which
`Finset` insertion reproduces. -/
def pairKey (a b : String) : Finset String := {a, b}

/-- Association-list lookup, modelling Python `dict` indexing. -/
def lookupA {α β : Type} [DecidableEq α] : List (α × β) → α → Option β
  | [], _ => none
  | (k', v) :: rest, k => if k' = k then some v else lookupA rest k

/-- Association-list key removal, modelling `dict.pop(k, None)` / `del d[k]`. -/
def eraseA {α β : Type} [DecidableEq α] (l : List (α × β)) (k : α) : List (α × β) :=
  l.filter (fun p => !decide (p.1 = k))

/-- Association-list insertion with overwrite, modelling `d[k] = v`.  (Python
keeps an overwritten key at its original position; this model moves it to the
end.  None of the verified properties observes entry order.) -/
def insertA {α β : Type} [DecidableEq α] (l : List (α × β)) (k : α) (v : β) :
    List (α × β) :=
  eraseA l k ++ [(k, v)]

/-- Whole state of a `KeyManagementService` instance
(`key_management_service.py`, lines 101-107): the session store, the pairing
index, the metrics, the configured QBER threshold and the global Eve toggle.
The `threading.Lock` is not modelled; every operation below is one atomic
step, which is exactly what the lock guarantees. -/
structure KMS where
  sessions : List (String × Session)
  pair_index : List (Finset String × String)
  metrics : KMSMetrics
  qber_threshold : Frac
  eve_active : Bool
deriving DecidableEq, Inhabited

/-- `KeyManagementService.__init__` with an explicit threshold argument. -/
def KMS.init (qberThreshold : Frac) : KMS :=
  ⟨[], [], KMSMetrics.initial, qberThreshold, false⟩

/-- `KeyManagementService()` built with the default threshold, which is the
simulator's exported `QBER_SECURITY_THRESHOLD` constant (the KMS imports it,
`key_management_service.py` line 27 and line 101). -/
def KMS.initDefault : KMS := KMS.init QBER_SECURITY_THRESHOLD

/-- The response dict of `_session_to_dict` (`key_management_service.py`,
lines 461-473).  The `key_hex` entry is a hex rendering of `key` and is not
modelled separately. -/
structure SessionView where
  session_id : String
  key : List Nat
  qber : Frac
  status : LinkStatus
  initiator : String
  peer : String
  joined : Bool
  pqc_enabled : Bool
deriving DecidableEq, Repr, Inhabited

/-- `_session_to_dict`. -/
def sessionToDict (s : Session) : SessionView :=
  ⟨s.session_id, s.key, s.qber, s.status, s.initiator, s.peer, s.joined,
    s.pqc_enabled⟩

/-- The exceptions the KMS raises, as a closed error type.
`linkCompromised` models the `Exception` of `create_session` whose message
carries the measured QBER; `sessionNotFound` and `notAParticipant` the two
`ValueError`s of `join_session`; `sessionCompromised` its `Exception` for a
RED session; `internalKeyError` a `KeyError` on a dangling pairing-index
entry (never reachable, but the Python indexing is partial). -/
inductive KMSError where
  | linkCompromised (qber : Frac)
  | sessionNotFound
  | notAParticipant
  | sessionCompromised
  | internalKeyError
deriving DecidableEq, Repr, Inhabited

/-- Byte encoding of a string (`str.encode()`; identical to the codepoint
list for the ASCII strings the KMS builds). -/
def strBytes (s : String) : List Nat := s.toList.map Char.toNat

/-- Modelled abstraction of HKDF-SHA256 with 32-byte output
(`cryptography.hazmat...HKDF`, an external library outside the repository):
an arbitrary fixed deterministic function of the input key material and the
domain-separation info bytes, producing 32 bytes.  No verified property
depends on anything but its determinism. -/
def hkdfDerive (ikm info : List Nat) : List Nat :=
  (List.range KEY_LENGTH_BYTES).map
    (fun i => ((ikm ++ info).foldl (fun a x => 257 * a + x) 1 + i) % 256)

/-- The count `sum(1 for s in sessions if s.status != RED)` used to refresh
`active_sessions`. -/
def countActive (sessions : List (String × Session)) : Nat :=
  (sessions.filter (fun p => !decide (p.2.status = LinkStatus.RED))).length

/-- The metrics after phase 1 of `create_session` (lines 168-173): record the
measured QBER and append a history sample. -/
def bumpHistory (kms : KMS) (q : Frac) : KMSMetrics :=
  { kms.metrics with
    last_qber := q
    qber_history := kms.metrics.qber_history ++ [(q, kms.eve_active)] }

/-- The link status written by the update of lines 188-192: GREEN below 5%,
YELLOW below the threshold, otherwise (only possible when the QBER equals the
threshold exactly, since larger values were rejected) the status is left as
it was. -/
def newSessionStatus (kms : KMS) (q : Frac) : LinkStatus :=
  if fracLt q ⟨5, 100⟩ then LinkStatus.GREEN
  else if fracLt q kms.qber_threshold then LinkStatus.YELLOW
  else kms.metrics.link_status

/-- The key derived in phases 3/3b (lines 194-220): HKDF over the raw BB84
key with the session-specific info string, then optionally a hybrid pass
mixing in the `os.urandom(32)` bytes `kyber`. -/
def derivedSessionKey (rawKey : List Nat) (initiator peer freshId : String)
    (pqc : Bool) (kyber : List Nat) : List Nat :=
  if pqc then
    hkdfDerive
      (hkdfDerive rawKey
          (strBytes ("QSTCS-Session-" ++ freshId ++ "-" ++ initiator ++ "-" ++ peer)) ++
        kyber)
      (strBytes "QSTCS-Hybrid-PQC")
  else
    hkdfDerive rawKey
      (strBytes ("QSTCS-Session-" ++ freshId ++ "-" ++ initiator ++ "-" ++ peer))

/-- The `Session` object stored in phase 4 (lines 222-232). -/
def newSession (kms : KMS) (initiator peer : String) (numBits : Nat)
    (pqc : Bool) (d : BB84Draws) (freshId : String) (kyber : List Nat) : Session :=
  ⟨freshId, initiator, peer,
    derivedSessionKey (bb84Key numBits d) initiator peer freshId pqc kyber,
    bb84Qber numBits kms.eve_active d,
    newSessionStatus kms (bb84Qber numBits kms.eve_active d),
    false, pqc⟩

/-- The KMS state after phase 4 of a successful `create_session`
(lines 222-240): store the session, index the pair, bump the counters and
recount the active sessions. -/
def createdState (kms : KMS) (initiator peer : String) (numBits : Nat)
    (pqc : Bool) (d : BB84Draws) (freshId : String) (kyber : List Nat) : KMS :=
  { kms with
    sessions :=
      insertA kms.sessions freshId (newSession kms initiator peer numBits pqc d freshId kyber)
    pair_index := insertA kms.pair_index (pairKey initiator peer) freshId
    metrics :=
      { bumpHistory kms (bb84Qber numBits kms.eve_active d) with
        link_status := newSessionStatus kms (bb84Qber numBits kms.eve_active d)
        total_sessions := kms.metrics.total_sessions + 1
        total_keys_issued := kms.metrics.total_keys_issued + 1
        active_sessions :=
          countActive
            (insertA kms.sessions freshId
              (newSession kms initiator peer numBits pqc d freshId kyber)) } }

/-- The body of `create_session` from the BB84 run onward
(`key_management_service.py`, lines 156-246), reached when no idempotent
return happened.  Extra inputs model the call's nondeterminism: `d` is the
outcome of the BB84 random draws, `freshId` the generated
`uuid.uuid4().hex[:16]`, and `kyber` the `os.urandom(32)` bytes of the
optional hybrid-PQC step. -/
def createSessionRun (kms : KMS) (initiator peer : String) (numBits : Nat)
    (pqc : Bool) (d : BB84Draws) (freshId : String) (kyber : List Nat) :
    Except KMSError SessionView × KMS :=
  if fracLt QBER_SECURITY_THRESHOLD (bb84Qber numBits kms.eve_active d) ||
      fracLt kms.qber_threshold (bb84Qber numBits kms.eve_active d) then
    (Except.error (KMSError.linkCompromised (bb84Qber numBits kms.eve_active d)),
      { kms with
        metrics :=
          { bumpHistory kms (bb84Qber numBits kms.eve_active d) with
            link_status := LinkStatus.RED
            attacks_detected := kms.metrics.attacks_detected + 1 } })
  else
    (Except.ok (sessionToDict (newSession kms initiator peer numBits pqc d freshId kyber)),
      createdState kms initiator peer numBits pqc d freshId kyber)

/-- `create_session` (`key_management_service.py`, lines 116-246): if the
pairing index holds an entry for the unordered pair and that session has not
been joined, return its view unchanged (idempotent path, lines 146-153);
otherwise run BB84 and proceed as in `createSessionRun`. -/
def create_session (kms : KMS) (initiator peer : String) (numBits : Nat)
    (pqc : Bool) (d : BB84Draws) (freshId : String) (kyber : List Nat) :
    Except KMSError SessionView × KMS :=
  match lookupA kms.pair_index (pairKey initiator peer) with
  | some existingId =>
    match lookupA kms.sessions existingId with
    | some existing =>
      if existing.joined then
        createSessionRun kms initiator peer numBits pqc d freshId kyber
      else (Except.ok (sessionToDict existing), kms)
    | none => (Except.error KMSError.internalKeyError, kms)
  | none => createSessionRun kms initiator peer numBits pqc d freshId kyber

/-- `join_session` (`key_management_service.py`, lines 248-287). -/
def join_session (kms : KMS) (sessionId deviceId : String) :
    Except KMSError SessionView × KMS :=
  match lookupA kms.sessions sessionId with
  | none => (Except.error KMSError.sessionNotFound, kms)
  | some session =>
    if deviceId ≠ session.peer ∧ deviceId ≠ session.initiator then
      (Except.error KMSError.notAParticipant, kms)
    else if session.status = LinkStatus.RED then
      (Except.error KMSError.sessionCompromised, kms)
    else
      let s2 : Session := { session with joined := true }
      (Except.ok (sessionToDict s2),
        { kms with
          sessions := insertA kms.sessions sessionId s2
          metrics :=
            { kms.metrics with
              total_keys_issued := kms.metrics.total_keys_issued + 1 } })

/-- `invalidate_session` (`key_management_service.py`, lines 427-442).  The
Python sets the record's status to RED just before deleting it; the deleted
record is unobservable afterwards, so the net state effect is removal of the
record, unconditional removal of the pairing-index entry for the session's
pair, and a refresh of `active_sessions`. -/
def invalidate_session (kms : KMS) (sessionId : String) : Bool × KMS :=
  match lookupA kms.sessions sessionId with
  | some session =>
    let sessions2 := eraseA kms.sessions sessionId
    (true,
      { kms with
        sessions := sessions2
        pair_index := eraseA kms.pair_index (pairKey session.initiator session.peer)
        metrics := { kms.metrics with active_sessions := countActive sessions2 } })
  | none => (false, kms)

/-- `reset` (`key_management_service.py`, lines 444-451).  The configured
threshold is an `__init__` argument and survives a reset. -/
def reset (kms : KMS) : KMS :=
  { kms with
    sessions := []
    pair_index := []
    metrics := KMSMetrics.initial
    eve_active := false }

/-- `activate_eve`. -/
def activate_eve (kms : KMS) : KMS := { kms with eve_active := true }

/-- `deactivate_eve`. -/
def deactivate_eve (kms : KMS) : KMS := { kms with eve_active := false }

/-- The condition under which `create_session` reaches the channel simulator:
no pairing-index entry for the pair, or the indexed session exists and has
already been joined. -/
def runsChannel (kms : KMS) (initiator peer : String) : Bool :=
  match lookupA kms.pair_index (pairKey initiator peer) with
  | none => true
  | some sid =>
    match lookupA kms.sessions sid with
    | some s => s.joined
    | none => false

/-- Outcomes of the random draws that the real `create_session` call can
produce: `create_session` invokes `simulate_bb84` with `noise_level = 0.0`
(so every `random.random() < noise_level` comparison is `False`) and with
`eve_intercept_rate = 1.0` when Eve is active (so every
`random.random() < eve_intercept_rate` comparison is `True`; when Eve is
inactive the intercept draws are never consulted). -/
def RealDraws (evePresent : Bool) (d : BB84Draws) : Prop :=
  (∀ b ∈ d.noiseDraws, b = false) ∧
    (evePresent = true → ∀ b ∈ d.interceptDraws, b = true)

instance (e : Bool) (d : BB84Draws) : Decidable (RealDraws e d) := by
  unfold RealDraws; infer_instance

/-- States reachable through the public operations of the service, from a
freshly constructed instance.  The `create` step carries the two modelling
side conditions: the BB84 draws are outcomes the real call can produce
(`RealDraws`) and the generated `uuid4` session id does not collide with a
stored one. -/
inductive Reachable : KMS → Prop where
  | init (thr : Frac) : Reachable (KMS.init thr)
  | create {kms} (h : Reachable kms) (initiator peer : String) (numBits : Nat)
      (pqc : Bool) (d : BB84Draws) (freshId : String) (kyber : List Nat)
      (hd : RealDraws kms.eve_active d)
      (hfresh : lookupA kms.sessions freshId = none) :
      Reachable (create_session kms initiator peer numBits pqc d freshId kyber).2
  | join {kms} (h : Reachable kms) (sid did : String) :
      Reachable (join_session kms sid did).2
  | invalidate {kms} (h : Reachable kms) (sid : String) :
      Reachable (invalidate_session kms sid).2
  | reset {kms} (h : Reachable kms) : Reachable (reset kms)
  | activate {kms} (h : Reachable kms) : Reachable (activate_eve kms)
  | deactivate {kms} (h : Reachable kms) : Reachable (deactivate_eve kms)

/-- States reachable using only the four operations named by the session-store
invariant claim: `create_session`, `join_session`, `invalidate_session` and
`reset` (no Eve activation, which is a separate operation). -/
inductive ReachableCore : KMS → Prop where
  | init (thr : Frac) : ReachableCore (KMS.init thr)
  | create {kms} (h : ReachableCore kms) (initiator peer : String)
      (numBits : Nat) (pqc : Bool) (d : BB84Draws) (freshId : String)
      (kyber : List Nat) (hd : RealDraws kms.eve_active d)
      (hfresh : lookupA kms.sessions freshId = none) :
      ReachableCore (create_session kms initiator peer numBits pqc d freshId kyber).2
  | join {kms} (h : ReachableCore kms) (sid did : String) :
      ReachableCore (join_session kms sid did).2
  | invalidate {kms} (h : ReachableCore kms) (sid : String) :
      ReachableCore (invalidate_session kms sid).2
  | reset {kms} (h : ReachableCore kms) : ReachableCore (reset kms)

/-! Concrete draws and states used to instantiate and to refute claims. -/

/-- One qubit, matching bases, no eavesdropper activity, no noise: the
exchange sifts one agreeing bit, QBER `0/1`. -/
def cleanDraws : BB84Draws := ⟨[false], [false], [false], [], [], [], []⟩

/-- Two qubits whose basis choices disagree at every position: nothing
survives sifting. -/
def noSiftDraws : BB84Draws := ⟨[false, true], [false, true], [true, false], [], [], [], []⟩

/-- One qubit, matching bases, Eve intercepting with the wrong basis and Bob
then drawing the wrong bit: QBER `1/1`, interception detected. -/
def atkDraws : BB84Draws := ⟨[false], [false], [false], [true], [true], [true], []⟩

/-- One hundred qubits, all bases matching, Eve intercepting everything with
a wrong basis on exactly the first 11 positions, Bob then drawing the wrong
bit there: QBER exactly `11/100`, the security threshold itself. -/
def edgeDraws : BB84Draws :=
  ⟨List.replicate 100 false, List.replicate 100 false, List.replicate 100 false,
    (List.range 100).map (fun i => decide (i < 11)),
    List.replicate 100 true,
    (List.range 100).map (fun i => decide (i < 11)),
    []⟩

/-- State after `create_session("Alpha", "Bravo")` on a fresh service. -/
def dupSt1 : KMS :=
  (create_session KMS.initDefault "Alpha" "Bravo" 1 false cleanDraws "c1" []).2

/-- ... after Bravo joined that session. -/
def dupSt2 : KMS := (join_session dupSt1 "c1" "Bravo").2

/-- ... after a second `create_session("Alpha", "Bravo")`: the joined session
`c1` stays stored and a second session `c2` for the same pair is created. -/
def dupSt3 : KMS :=
  (create_session dupSt2 "Alpha" "Bravo" 1 false cleanDraws "c2" []).2

/-- ... after invalidating the old session `c1`, which also pops the pairing
index entry currently referencing `c2`. -/
def dupSt4 : KMS := (invalidate_session dupSt3 "c1").2

/-- A fresh service with the eavesdropper toggle switched on. -/
def eveSt1 : KMS := activate_eve KMS.initDefault

/-- ... after a create attempt that measured QBER `1` and was rejected: the
aggregate link status is RED and one attack is recorded. -/
def eveSt2 : KMS :=
  (create_session eveSt1 "Probe" "Target" 1 false atkDraws "a1" []).2

/-- ... after a create attempt on the RED state that measured a QBER of
exactly the threshold `11/100`: the attempt is accepted and the stored
session inherits the RED aggregate status. -/
def edgeSt : KMS :=
  (create_session eveSt2 "Alpha" "Bravo" 100 false edgeDraws "e1" []).2

/-- Result of the happy-path create used to instantiate the create-then-join
theorem. -/
def w1Out : Except KMSError SessionView × KMS :=
  create_session KMS.initDefault "Alpha" "Bravo" 1 false cleanDraws "w1" []

/-- The session view returned by that create. -/
def w1View : SessionView :=
  match w1Out.1 with
  | Except.ok v => v
  | Except.error _ => default

/-- The unjoined session stored by the first create of the duplicate chain. -/
def c7Session : Session :=
  match lookupA dupSt1.sessions "c1" with
  | some s => s
  | none => default

/-- The joined session `c1` as stored in `dupSt3`. -/
def c10Session : Session :=
  match lookupA dupSt3.sessions "c1" with
  | some s => s
  | none => default

/-- The session stored by the threshold-edge create. -/
def edgeSession : Session :=
  match lookupA edgeSt.sessions "e1" with
  | some s => s
  | none => default

/-! Helper lemmas about the association-list model of Python dicts. -/

theorem lookupA_eraseA_self {α β : Type} [DecidableEq α] (l : List (α × β)) (k : α) :
    lookupA (eraseA l k) k = none := by
  induction l with
  | nil => rfl
  | cons p rest ih =>
    by_cases h : p.1 = k
    · simpa [eraseA, h] using ih
    · simpa [eraseA, lookupA, h] using ih

theorem lookupA_append {α β : Type} [DecidableEq α] (l₁ l₂ : List (α × β)) (k : α) :
    lookupA (l₁ ++ l₂) k =
      (lookupA l₁ k).rec (lookupA l₂ k) (fun v => some v) := by
  induction l₁ with
  | nil => rfl
  | cons p rest ih =>
    by_cases h : p.1 = k
    · simp [lookupA, h]
    · simpa [lookupA, h] using ih

theorem lookupA_eraseA_ne {α β : Type} [DecidableEq α] (l : List (α × β)) {k k' : α}
    (h : k' ≠ k) : lookupA (eraseA l k) k' = lookupA l k' := by
  induction l with
  | nil => rfl
  | cons p rest ih =>
    by_cases hp : p.1 = k
    · have hpk : p.1 ≠ k' := by rw [hp]; exact Ne.symm h
      rw [show eraseA (p :: rest) k = eraseA rest k by simp [eraseA, hp]]
      rw [ih]
      rw [show lookupA (p :: rest) k' = lookupA rest k' by simp [lookupA, hpk]]
    · rw [show eraseA (p :: rest) k = p :: eraseA rest k by simp [eraseA, hp]]
      by_cases hk : p.1 = k'
      · simp [lookupA, hk]
      · simp only [lookupA, if_neg hk]
        exact ih

theorem lookupA_insertA_self {α β : Type} [DecidableEq α] (l : List (α × β)) (k : α) (v : β) :
    lookupA (insertA l k v) k = some v := by
  rw [insertA, lookupA_append, lookupA_eraseA_self]
  simp [lookupA]

theorem lookupA_insertA_ne {α β : Type} [DecidableEq α] (l : List (α × β)) {k k' : α} (v : β)
    (h : k' ≠ k) : lookupA (insertA l k v) k' = lookupA l k' := by
  rw [insertA, lookupA_append]
  rw [lookupA_eraseA_ne l h]
  cases hl : lookupA l k' with
  | none => simp [lookupA, Ne.symm h]
  | some w => simp

theorem mem_eraseA {α β : Type} [DecidableEq α] {l : List (α × β)} {k : α} {p : α × β} :
    p ∈ eraseA l k ↔ p ∈ l ∧ p.1 ≠ k := by
  simp [eraseA, List.mem_filter]

theorem mem_insertA {α β : Type} [DecidableEq α] {l : List (α × β)} {k : α} {v : β}
    {p : α × β} : p ∈ insertA l k v ↔ p = (k, v) ∨ (p ∈ l ∧ p.1 ≠ k) := by
  simp [insertA, mem_eraseA, or_comm]

theorem lookupA_mem {α β : Type} [DecidableEq α] {l : List (α × β)} {k : α} {v : β}
    (h : lookupA l k = some v) : (k, v) ∈ l := by
  induction l with
  | nil => simp [lookupA] at h
  | cons p rest ih =>
    by_cases hp : p.1 = k
    · simp only [lookupA, if_pos hp, Option.some.injEq] at h
      have hpv : p = (k, v) := by
        cases p
        simp only [Prod.mk.injEq]
        exact ⟨hp, h⟩
      rw [← hpv]
      exact List.mem_cons_self _ _
    · simp only [lookupA, if_neg hp] at h
      exact List.mem_cons_of_mem _ (ih h)

/-! Helper lemmas about unordered pairs. -/

theorem mem_pairKey_left (a b : String) : a ∈ pairKey a b := by
  simp [pairKey]

theorem mem_pairKey_right (a b : String) : b ∈ pairKey a b := by
  simp [pairKey]

theorem mem_pairKey_iff {x a b : String} : x ∈ pairKey a b ↔ x = a ∨ x = b := by
  simp [pairKey]

/-- If two unordered pairs agree, the right element of the second is one of
the two elements of the first. -/
theorem pairKey_right_cases {a b c e : String} (h : pairKey a b = pairKey c e) :
    b = c ∨ b = e := by
  have := mem_pairKey_right a b
  rw [h, mem_pairKey_iff] at this
  exact this

/-! Helper lemmas about realizable draws. -/

theorem getD_false_of_all_false {l : List Bool} (h : ∀ b ∈ l, b = false) (i : Nat) :
    l.getD i false = false := by
  rw [List.getD_eq_getElem?_getD]
  rcases hg : l[i]? with _ | b
  · simp
  · have hb : b ∈ l := List.getElem?_mem hg
    simp [h b hb]

/-- With Eve absent and every noise draw `false` (which is forced when
`noise_level = 0.0`), Bob's result equals Alice's bit at every sifted
position. -/
theorem bobResult_no_eve {d : BB84Draws} (hnoise : ∀ b ∈ d.noiseDraws, b = false)
    {i : Nat} (hbase : d.aliceBases.getD i false = d.bobBases.getD i false) :
    bobResult false d i = d.aliceBits.getD i false := by
  rw [bobResult, eveDisturbed]
  rw [if_pos (by rw [beq_iff_eq, ← hbase])]
  rw [if_neg (by simp)]
  rw [if_neg (by rw [getD_false_of_all_false hnoise i]; exact Bool.false_ne_true)]

/-- With Eve absent and no noise, the error count is zero. -/
theorem bb84Errors_no_eve (numBits : Nat) (d : BB84Draws)
    (hnoise : ∀ b ∈ d.noiseDraws, b = false) :
    bb84Errors numBits false d = 0 := by
  rw [bb84Errors, List.length_eq_zero, List.filter_eq_nil_iff]
  intro i hi
  have hbase : (d.aliceBases.getD i false == d.bobBases.getD i false) = true := by
    have := List.of_mem_filter hi
    simpa using this
  rw [beq_iff_eq] at hbase
  simp [bobResult_no_eve hnoise hbase]

/-- With Eve absent and no noise, the measured QBER is `0 / sifted` or the
`1.0` of the zero-sifted edge case. -/
theorem bb84Qber_no_eve (numBits : Nat) (d : BB84Draws)
    (hnoise : ∀ b ∈ d.noiseDraws, b = false) :
    bb84Qber numBits false d = ⟨1, 1⟩ ∨
      ((siftedPositions numBits d).length ≠ 0 ∧
        bb84Qber numBits false d = ⟨0, (siftedPositions numBits d).length⟩) := by
  rw [bb84Qber]
  by_cases h : (siftedPositions numBits d).length = 0
  · left; simp [h]
  · right; simp [h, bb84Errors_no_eve numBits d hnoise]

/-! Structural well-formedness of the KMS state, and its preservation. -/

/-- Every stored session record carries its own store key as `session_id`
(as guaranteed by `create_session`, which generates the id and stores the
record under it). -/
def SessionsIdWF (kms : KMS) : Prop :=
  ∀ p ∈ kms.sessions, (p : String × Session).2.session_id = p.1

/-- Every pairing-index entry resolves to a stored session whose unordered
participant pair is the entry's key. -/
def PairIndexWF (kms : KMS) : Prop :=
  ∀ e ∈ kms.pair_index,
    ∃ s, lookupA kms.sessions (e : Finset String × String).2 = some s ∧
      pairKey s.initiator s.peer = e.1

/-- Combined structural invariant. -/
def StructWF (kms : KMS) : Prop := SessionsIdWF kms ∧ PairIndexWF kms

/-- `create_session` either leaves the state untouched (idempotent return or
dangling-index `KeyError`) or behaves as `createSessionRun`. -/
theorem create_session_state_cases (kms : KMS) (i p : String) (n : Nat) (pq : Bool)
    (d : BB84Draws) (fid : String) (ky : List Nat) :
    (create_session kms i p n pq d fid ky).2 = kms ∨
      (create_session kms i p n pq d fid ky).2 =
        (createSessionRun kms i p n pq d fid ky).2 := by
  rcases hidx : lookupA kms.pair_index (pairKey i p) with _ | sid
  · right; simp [create_session, hidx]
  · rcases hses : lookupA kms.sessions sid with _ | ex
    · left; simp [create_session, hidx, hses]
    · by_cases hj : ex.joined = true
      · right; simp [create_session, hidx, hses, hj]
      · left; simp [create_session, hidx, hses, hj]

theorem sessionsIdWF_createSessionRun {kms : KMS} (h : SessionsIdWF kms)
    (i p : String) (n : Nat) (pq : Bool) (d : BB84Draws) (fid : String) (ky : List Nat) :
    SessionsIdWF (createSessionRun kms i p n pq d fid ky).2 := by
  rw [createSessionRun]
  split
  · exact h
  · intro q hq
    rcases mem_insertA.mp hq with rfl | ⟨hq, _⟩
    · rfl
    · exact h q hq

theorem pairIndexWF_createSessionRun {kms : KMS} (h : PairIndexWF kms)
    {fid : String} (hfresh : lookupA kms.sessions fid = none)
    (i p : String) (n : Nat) (pq : Bool) (d : BB84Draws) (ky : List Nat) :
    PairIndexWF (createSessionRun kms i p n pq d fid ky).2 := by
  rw [createSessionRun]
  split
  · exact h
  · intro e he
    simp only [createdState] at he ⊢
    rcases mem_insertA.mp he with rfl | ⟨he, hne⟩
    · exact ⟨newSession kms i p n pq d fid ky, lookupA_insertA_self _ _ _, rfl⟩
    · obtain ⟨s, hsl, hp⟩ := h e he
      have hif : e.2 ≠ fid := by
        intro hh
        rw [hh, hfresh] at hsl
        exact Option.noConfusion hsl
      exact ⟨s, by rw [lookupA_insertA_ne _ _ hif]; exact hsl, hp⟩

theorem sessionsIdWF_join {kms : KMS} (h : SessionsIdWF kms) (sid did : String) :
    SessionsIdWF (join_session kms sid did).2 := by
  rcases hs : lookupA kms.sessions sid with _ | session
  · simp only [join_session, hs]; exact h
  · simp only [join_session, hs]
    split
    · exact h
    · split
      · exact h
      · intro q hq
        rcases mem_insertA.mp hq with rfl | ⟨hq, _⟩
        · simpa using h _ (lookupA_mem hs)
        · exact h q hq

theorem pairIndexWF_join {kms : KMS} (h : PairIndexWF kms) (sid did : String) :
    PairIndexWF (join_session kms sid did).2 := by
  rcases hs : lookupA kms.sessions sid with _ | session
  · simp only [join_session, hs]; exact h
  · simp only [join_session, hs]
    split
    · exact h
    · split
      · exact h
      · intro e he
        obtain ⟨s, hsl, hp⟩ := h e he
        by_cases heq : e.2 = sid
        · rw [heq, hs] at hsl
          obtain rfl : session = s := Option.some.inj hsl
          refine ⟨{session with joined := true}, ?_, ?_⟩
          · rw [heq]; exact lookupA_insertA_self _ _ _
          · simpa using hp
        · exact ⟨s, by rw [lookupA_insertA_ne _ _ heq]; exact hsl, hp⟩

theorem sessionsIdWF_invalidate {kms : KMS} (h : SessionsIdWF kms) (sid : String) :
    SessionsIdWF (invalidate_session kms sid).2 := by
  rcases hs : lookupA kms.sessions sid with _ | session
  · simp only [invalidate_session, hs]; exact h
  · simp only [invalidate_session, hs]
    intro q hq
    exact h q (mem_eraseA.mp hq).1

theorem pairIndexWF_invalidate {kms : KMS} (h : PairIndexWF kms) (sid : String) :
    PairIndexWF (invalidate_session kms sid).2 := by
  rcases hs : lookupA kms.sessions sid with _ | session
  · simp only [invalidate_session, hs]; exact h
  · simp only [invalidate_session, hs]
    intro e he
    obtain ⟨hee, hne⟩ := mem_eraseA.mp he
    obtain ⟨s, hsl, hp⟩ := h e hee
    have hsid : e.2 ≠ sid := by
      intro hh
      rw [hh, hs] at hsl
      obtain rfl : session = s := Option.some.inj hsl
      exact hne hp.symm
    exact ⟨s, by rw [lookupA_eraseA_ne _ hsid]; exact hsl, hp⟩

/-! Invariants of the Eve-free operation subset (create / join / invalidate /
reset): the Eve toggle stays off, every stored session is GREEN, and the
pairing index is well-formed. -/

/-- Invariant of `ReachableCore` states. -/
def CoreInv (kms : KMS) : Prop :=
  kms.eve_active = false ∧
    (∀ p ∈ kms.sessions, (p : String × Session).2.status = LinkStatus.GREEN) ∧
    PairIndexWF kms

theorem createSessionRun_eve (kms : KMS) (i p : String) (n : Nat) (pq : Bool)
    (d : BB84Draws) (fid : String) (ky : List Nat) :
    (createSessionRun kms i p n pq d fid ky).2.eve_active = kms.eve_active := by
  rw [createSessionRun]
  split <;> rfl

/-- When there is no eavesdropper and the channel noise draws are all `false`,
a `createSessionRun` that is not rejected writes a GREEN session status: the
measured QBER is either `1.0` (rejected) or exactly `0`. -/
theorem newSessionStatus_green {kms : KMS} (heve : kms.eve_active = false)
    {d : BB84Draws} (hnoise : ∀ b ∈ d.noiseDraws, b = false) (n : Nat)
    (hok : (fracLt QBER_SECURITY_THRESHOLD (bb84Qber n kms.eve_active d) ||
        fracLt kms.qber_threshold (bb84Qber n kms.eve_active d)) = false) :
    newSessionStatus kms (bb84Qber n kms.eve_active d) = LinkStatus.GREEN := by
  rw [heve] at hok ⊢
  rcases bb84Qber_no_eve n d hnoise with hq | ⟨hlen, hq⟩
  · exfalso
    rw [hq] at hok
    simp [fracLt, QBER_SECURITY_THRESHOLD] at hok
  · rw [hq, newSessionStatus]
    rw [if_pos]
    have hpos : 0 < (siftedPositions n d).length := Nat.pos_of_ne_zero hlen
    simp [fracLt]
    omega

theorem sessionsGreen_createSessionRun {kms : KMS} {d : BB84Draws}
    (heve : kms.eve_active = false) (hnoise : ∀ b ∈ d.noiseDraws, b = false)
    (hgreen : ∀ p ∈ kms.sessions, (p : String × Session).2.status = LinkStatus.GREEN)
    (i p : String) (n : Nat) (pq : Bool) (fid : String) (ky : List Nat) :
    ∀ q ∈ (createSessionRun kms i p n pq d fid ky).2.sessions,
      (q : String × Session).2.status = LinkStatus.GREEN := by
  rw [createSessionRun]
  split
  · exact hgreen
  next hcond =>
    intro q hq
    rcases mem_insertA.mp hq with rfl | ⟨hq, _⟩
    · show (newSession kms i p n pq d fid ky).status = LinkStatus.GREEN
      rw [newSession]
      exact newSessionStatus_green heve hnoise n (Bool.not_eq_true _ ▸ eq_false_of_ne_true hcond)
    · exact hgreen q hq

theorem join_session_frame (kms : KMS) (sid did : String) :
    (join_session kms sid did).2.eve_active = kms.eve_active ∧
      (join_session kms sid did).2.pair_index = kms.pair_index := by
  rcases hs : lookupA kms.sessions sid with _ | s
  · simp [join_session, hs]
  · simp only [join_session, hs]
    split
    · exact ⟨rfl, rfl⟩
    · split
      · exact ⟨rfl, rfl⟩
      · exact ⟨rfl, rfl⟩

theorem invalidate_session_eve (kms : KMS) (sid : String) :
    (invalidate_session kms sid).2.eve_active = kms.eve_active := by
  rcases hs : lookupA kms.sessions sid with _ | s <;> simp [invalidate_session, hs]

theorem sessionsGreen_join {kms : KMS}
    (hgreen : ∀ p ∈ kms.sessions, (p : String × Session).2.status = LinkStatus.GREEN)
    (sid did : String) :
    ∀ q ∈ (join_session kms sid did).2.sessions,
      (q : String × Session).2.status = LinkStatus.GREEN := by
  rcases hs : lookupA kms.sessions sid with _ | session
  · simp only [join_session, hs]; exact hgreen
  · simp only [join_session, hs]
    split
    · exact hgreen
    · split
      · exact hgreen
      · intro q hq
        rcases mem_insertA.mp hq with rfl | ⟨hq, _⟩
        · simpa using hgreen _ (lookupA_mem hs)
        · exact hgreen q hq

theorem sessionsGreen_invalidate {kms : KMS}
    (hgreen : ∀ p ∈ kms.sessions, (p : String × Session).2.status = LinkStatus.GREEN)
    (sid : String) :
    ∀ q ∈ (invalidate_session kms sid).2.sessions,
      (q : String × Session).2.status = LinkStatus.GREEN := by
  rcases hs : lookupA kms.sessions sid with _ | session
  · simp only [invalidate_session, hs]; exact hgreen
  · simp only [invalidate_session, hs]
    intro q hq
    exact hgreen q (mem_eraseA.mp hq).1

/-- Every state reachable through create / join / invalidate / reset alone
satisfies the core invariant. -/
theorem reachableCore_coreInv {kms : KMS} (h : ReachableCore kms) : CoreInv kms := by
  induction h with
  | init thr =>
    exact ⟨rfl, fun p hp => absurd hp (List.not_mem_nil p),
      fun e he => absurd he (List.not_mem_nil e)⟩
  | create h i p n pq d fid ky hd hfresh ih =>
    obtain ⟨heve, hgreen, hwf⟩ := ih
    rcases create_session_state_cases _ i p n pq d fid ky with hc | hc
    · rw [hc]; exact ⟨heve, hgreen, hwf⟩
    · rw [hc]
      refine ⟨?_, ?_, pairIndexWF_createSessionRun hwf hfresh i p n pq d ky⟩
      · rw [createSessionRun_eve]; exact heve
      · exact sessionsGreen_createSessionRun heve hd.1 hgreen i p n pq fid ky
  | join h sid did ih =>
    obtain ⟨heve, hgreen, hwf⟩ := ih
    exact ⟨(join_session_frame _ sid did).1.trans heve,
      sessionsGreen_join hgreen sid did, pairIndexWF_join hwf sid did⟩
  | invalidate h sid ih =>
    obtain ⟨heve, hgreen, hwf⟩ := ih
    exact ⟨(invalidate_session_eve _ sid).trans heve,
      sessionsGreen_invalidate hgreen sid, pairIndexWF_invalidate hwf sid⟩
  | reset h ih =>
    exact ⟨rfl, fun p hp => absurd hp (List.not_mem_nil p),
      fun e he => absurd he (List.not_mem_nil e)⟩

/-- Every state reachable through the full operation set is structurally
well-formed. -/
theorem reachable_structWF {kms : KMS} (h : Reachable kms) : StructWF kms := by
  induction h with
  | init thr => exact ⟨fun p hp => absurd hp (List.not_mem_nil p),
      fun e he => absurd he (List.not_mem_nil e)⟩
  | create h i p n pq d fid ky hd hfresh ih =>
    rcases create_session_state_cases _ i p n pq d fid ky with hcase | hcase
    · rw [hcase]; exact ih
    · rw [hcase]
      exact ⟨sessionsIdWF_createSessionRun ih.1 i p n pq d fid ky,
        pairIndexWF_createSessionRun ih.2 hfresh i p n pq d ky⟩
  | join h sid did ih =>
    exact ⟨sessionsIdWF_join ih.1 sid did, pairIndexWF_join ih.2 sid did⟩
  | invalidate h sid ih =>
    exact ⟨sessionsIdWF_invalidate ih.1 sid, pairIndexWF_invalidate ih.2 sid⟩
  | reset h ih => exact ⟨fun p hp => absurd hp (List.not_mem_nil p),
      fun e he => absurd he (List.not_mem_nil e)⟩
  | activate h ih => exact ih
  | deactivate h ih => exact ih

/-! Further characterization lemmas for `create_session` and `join_session`. -/

theorem create_session_runs {kms : KMS} {i p : String}
    (hrun : runsChannel kms i p = true) (n : Nat) (pq : Bool) (d : BB84Draws)
    (fid : String) (ky : List Nat) :
    create_session kms i p n pq d fid ky = createSessionRun kms i p n pq d fid ky := by
  rcases hidx : lookupA kms.pair_index (pairKey i p) with _ | sid
  · simp [create_session, hidx]
  · rcases hses : lookupA kms.sessions sid with _ | ex
    · simp only [runsChannel, hidx, hses] at hrun
      exact absurd hrun (by simp)
    · simp only [runsChannel, hidx, hses] at hrun
      simp [create_session, hidx, hses, hrun]

/-- A `join_session` call by a participant on a stored non-RED session
succeeds, marks the session joined and bumps the key-issuance counter. -/
theorem join_session_success (kms : KMS) (sid did : String) (s : Session)
    (hs : lookupA kms.sessions sid = some s)
    (hdid : did = s.peer ∨ did = s.initiator)
    (hst : s.status ≠ LinkStatus.RED) :
    join_session kms sid did =
      (Except.ok (sessionToDict { s with joined := true }),
        { kms with
          sessions := insertA kms.sessions sid { s with joined := true }
          metrics :=
            { kms.metrics with
              total_keys_issued := kms.metrics.total_keys_issued + 1 } }) := by
  have hcond : ¬(did ≠ s.peer ∧ did ≠ s.initiator) := by
    rcases hdid with h | h
    · exact fun hc => hc.1 h
    · exact fun hc => hc.2 h
  simp [join_session, hs, hcond, hst]

/-- After a `createSessionRun` that returned a view with non-RED status, the
peer's join succeeds with the identical key. -/
theorem join_after_createRun {kms : KMS} {A B : String} {n : Nat} {pq : Bool}
    {d : BB84Draws} {fid : String} {ky : List Nat} {v : SessionView} {kms' : KMS}
    (hc : createSessionRun kms A B n pq d fid ky = (Except.ok v, kms'))
    (hv : v.status ≠ LinkStatus.RED) :
    ∃ w kms2, join_session kms' v.session_id B = (Except.ok w, kms2) ∧
      w.key = v.key ∧ w.joined = true ∧
      (lookupA kms2.sessions v.session_id).map Session.joined = some true ∧
      kms2.metrics.total_keys_issued = kms'.metrics.total_keys_issued + 1 := by
  rw [createSessionRun] at hc
  by_cases hcond : (fracLt QBER_SECURITY_THRESHOLD (bb84Qber n kms.eve_active d) ||
      fracLt kms.qber_threshold (bb84Qber n kms.eve_active d)) = true
  · rw [if_pos hcond] at hc
    rw [Prod.mk.injEq] at hc
    exact absurd hc.1 (by simp)
  · rw [if_neg hcond] at hc
    rw [Prod.mk.injEq, Except.ok.injEq] at hc
    obtain ⟨hv1, hst⟩ := hc
    subst hst
    subst hv1
    have hlook : lookupA (createdState kms A B n pq d fid ky).sessions fid
        = some (newSession kms A B n pq d fid ky) := lookupA_insertA_self _ _ _
    have hj := join_session_success (createdState kms A B n pq d fid ky) fid B
      (newSession kms A B n pq d fid ky) hlook (Or.inl rfl) hv
    refine ⟨_, _, hj, rfl, rfl, ?_, rfl⟩
    show (lookupA
        (insertA (createdState kms A B n pq d fid ky).sessions fid
          { newSession kms A B n pq d fid ky with joined := true }) fid).map
        Session.joined = some true
    rw [lookupA_insertA_self]
    rfl

/-! The claims. -/

/-- Claim C2: for every qubit count, eavesdropper setting, intercept and
noise parameters (acting through the recorded draw outcomes) and every
outcome of the random draws, `simulate_bb84` returns exactly 32 bytes of key
material; when no position survives sifting it returns the all-zero 32-byte
key and error rate `1.0` (the fraction `1/1`). -/
theorem bb84_key_always_32_bytes (numBits : Nat) (evePresent : Bool) (d : BB84Draws) :
    (simulate_bb84 numBits evePresent d).1.length = KEY_LENGTH_BYTES ∧
    ((siftedPositions numBits d).length = 0 →
      (simulate_bb84 numBits evePresent d).1 = List.replicate KEY_LENGTH_BYTES 0 ∧
      (simulate_bb84 numBits evePresent d).2.1 = ⟨1, 1⟩) := by
  constructor
  · show (bb84Key numBits d).length = KEY_LENGTH_BYTES
    simp only [bb84Key]
    split
    · simp [natToBytes]
    · split
      · simp
      · simp [natToBytes]
  · intro h
    have hlen : (siftedAliceBits numBits d).length = 0 := by
      rw [siftedAliceBits, List.length_map, h]
    refine ⟨?_, ?_⟩
    · show bb84Key numBits d = _
      simp only [bb84Key]
      rw [if_neg (by rw [hlen]; simp [KEY_LENGTH_BITS]), if_pos hlen]
    · show bb84Qber numBits evePresent d = _
      rw [bb84Qber, if_pos h]

/-- Claim C2 witness: two qubits with disagreeing bases everywhere sift to
nothing; the key is 32 zero bytes and the error rate is `1.0`. -/
theorem bb84_key_always_32_bytes_witness :
    (siftedPositions 2 noSiftDraws).length = 0 ∧
    (simulate_bb84 2 false noSiftDraws).1 = List.replicate KEY_LENGTH_BYTES 0 ∧
    (simulate_bb84 2 false noSiftDraws).2.1 = ⟨1, 1⟩ :=
  ⟨by decide, ((bb84_key_always_32_bytes 2 false noSiftDraws).2 (by decide)).1,
    ((bb84_key_always_32_bytes 2 false noSiftDraws).2 (by decide)).2⟩

/-- Claim C3: the interception flag returned by `simulate_bb84` is true
exactly when the returned error rate exceeds the threshold `11/100`
(cross-multiplied exact comparison), and the default KMS is constructed with
the simulator's exported `QBER_SECURITY_THRESHOLD` constant, not a duplicated
literal. -/
theorem bb84_attack_detected_iff (numBits : Nat) (evePresent : Bool) (d : BB84Draws) :
    ((simulate_bb84 numBits evePresent d).2.2 = true ↔
      11 * (simulate_bb84 numBits evePresent d).2.1.den <
        (simulate_bb84 numBits evePresent d).2.1.num * 100) ∧
    KMS.initDefault.qber_threshold = QBER_SECURITY_THRESHOLD := by
  constructor
  · show fracLt QBER_SECURITY_THRESHOLD (bb84Qber numBits evePresent d) = true ↔
      11 * (bb84Qber numBits evePresent d).den < (bb84Qber numBits evePresent d).num * 100
    rw [fracLt]
    simp [QBER_SECURITY_THRESHOLD]
  · rfl

/-- Claim C5 evaluation: `create_session("X", "X")` performs no
initiator-equals-peer validation.  With clean one-qubit draws it succeeds and
stores a session whose initiator and peer are both `"X"` — there is no
`InvalidPairing` rejection anywhere in the code. -/
theorem create_session_self_pair_succeeds :
    (create_session KMS.initDefault "X" "X" 1 false cleanDraws "x1" []).1.toOption.isSome = true ∧
    (lookupA (create_session KMS.initDefault "X" "X" 1 false cleanDraws "x1" []).2.sessions
        "x1").map Session.initiator = some "X" ∧
    (lookupA (create_session KMS.initDefault "X" "X" 1 false cleanDraws "x1" []).2.sessions
        "x1").map Session.peer = some "X" ∧
    (create_session KMS.initDefault "X" "X" 1 false cleanDraws "x1" []).2.metrics.total_sessions
      = 1 := by
  decide

/-- Claim C7 (amended): when the pairing index maps the unordered pair to a
stored, not-yet-joined, non-compromised session, `create_session` returns
that session's view and leaves the state completely unchanged — and this
holds for every draw outcome `d`, i.e. the channel simulator is not
consulted. -/
theorem create_session_idempotent (kms : KMS) (A B : String) (n : Nat) (pq : Bool)
    (d : BB84Draws) (fid : String) (ky : List Nat) (sid : String) (s : Session)
    (hidx : lookupA kms.pair_index (pairKey A B) = some sid)
    (hses : lookupA kms.sessions sid = some s)
    (hnj : s.joined = false)
    (hnc : s.status ≠ LinkStatus.RED) :
    create_session kms A B n pq d fid ky = (Except.ok (sessionToDict s), kms) := by
  simp [create_session, hidx, hses, hnj]

/-- Claim C7 witness: re-creating the fresh unjoined Alpha-Bravo session is
idempotent even when the offered draws would have measured QBER `1`. -/
theorem create_session_idempotent_witness :
    create_session dupSt1 "Alpha" "Bravo" 1 false atkDraws "zz" [] =
      (Except.ok (sessionToDict c7Session), dupSt1) :=
  create_session_idempotent dupSt1 "Alpha" "Bravo" 1 false atkDraws "zz" [] "c1" c7Session
    (by decide) (by decide) (by decide) (by decide)

/-- Claim C7 counterexample: after create, join, re-create and invalidation
of the first session, the store still holds the non-compromised, not-yet-
joined session `c2` for {Alpha, Bravo}, but its pairing-index entry is gone;
a further `create_session` for that pair is not idempotent: it returns a new
session `c3` and increments the total-sessions counter. -/
theorem create_session_idempotent_cex :
    ReachableCore dupSt4 ∧
    (lookupA dupSt4.sessions "c2").map Session.joined = some false ∧
    (lookupA dupSt4.sessions "c2").map Session.status = some LinkStatus.GREEN ∧
    (lookupA dupSt4.sessions "c2").map Session.initiator = some "Alpha" ∧
    (lookupA dupSt4.sessions "c2").map Session.peer = some "Bravo" ∧
    (create_session dupSt4 "Alpha" "Bravo" 1 false cleanDraws "c3" []).1.toOption.map
        SessionView.session_id = some "c3" ∧
    (create_session dupSt4 "Alpha" "Bravo" 1 false cleanDraws "c3" []).2.metrics.total_sessions
      = dupSt4.metrics.total_sessions + 1 := by
  refine ⟨?_, by decide, by decide, by decide, by decide, by decide, by decide⟩
  exact ReachableCore.invalidate
    (ReachableCore.create
      (ReachableCore.join
        (ReachableCore.create (ReachableCore.init QBER_SECURITY_THRESHOLD)
          "Alpha" "Bravo" 1 false cleanDraws "c1" [] (by decide) rfl)
        "c1" "Bravo")
      "Alpha" "Bravo" 1 false cleanDraws "c2" [] (by decide) (by decide))
    "c1"

/-- Claim C8 (amended): in every state reachable via create_session,
join_session, invalidate_session and reset, every pairing-index entry points
to a stored session for exactly that unordered pair, and that session's
status is not COMPROMISED.  (The claim's other conjunct — at most one
non-compromised stored session per unordered pair — fails; see the
counterexample.) -/
theorem pair_index_entries_wf {kms : KMS} (h : ReachableCore kms) :
    ∀ e ∈ kms.pair_index,
      ∃ s, lookupA kms.sessions (e : Finset String × String).2 = some s ∧
        pairKey s.initiator s.peer = e.1 ∧ s.status ≠ LinkStatus.RED := by
  obtain ⟨heve, hgreen, hwf⟩ := reachableCore_coreInv h
  intro e he
  obtain ⟨s, hsl, hp⟩ := hwf e he
  refine ⟨s, hsl, hp, ?_⟩
  have hg := hgreen _ (lookupA_mem hsl)
  simp only at hg
  rw [hg]
  exact fun hh => LinkStatus.noConfusion hh

/-- Claim C8 witness: the single index entry of the one-create state resolves
to a stored, non-compromised Alpha-Bravo session. -/
theorem pair_index_entries_wf_witness :
    ∃ s, lookupA dupSt1.sessions "c1" = some s ∧
      pairKey s.initiator s.peer = pairKey "Alpha" "Bravo" ∧
      s.status ≠ LinkStatus.RED :=
  pair_index_entries_wf
    (ReachableCore.create (ReachableCore.init QBER_SECURITY_THRESHOLD)
      "Alpha" "Bravo" 1 false cleanDraws "c1" [] (by decide) rfl)
    (pairKey "Alpha" "Bravo", "c1") (by decide)

/-- Claim C8 counterexample: the reachable state `dupSt3` (create, join,
create again) stores two non-compromised sessions for the same unordered
pair {Alpha, Bravo}. -/
theorem pair_uniqueness_cex :
    ReachableCore dupSt3 ∧
    (dupSt3.sessions.filter (fun p =>
        decide (pairKey p.2.initiator p.2.peer = pairKey "Alpha" "Bravo") &&
          !decide (p.2.status = LinkStatus.RED))).length = 2 := by
  constructor
  · exact ReachableCore.create
      (ReachableCore.join
        (ReachableCore.create (ReachableCore.init QBER_SECURITY_THRESHOLD)
          "Alpha" "Bravo" 1 false cleanDraws "c1" [] (by decide) rfl)
        "c1" "Bravo")
      "Alpha" "Bravo" 1 false cleanDraws "c2" [] (by decide) (by decide)
  · decide

/-- Claim C9: the three failure modes of `join_session` — unknown session id,
participant check (performed before the compromised check), compromised
session — each return the stated error and leave the state exactly
unchanged. -/
theorem join_session_failure_cases (kms : KMS) (sid did : String) :
    (lookupA kms.sessions sid = none →
      join_session kms sid did = (Except.error KMSError.sessionNotFound, kms)) ∧
    (∀ s, lookupA kms.sessions sid = some s → did ≠ s.peer → did ≠ s.initiator →
      join_session kms sid did = (Except.error KMSError.notAParticipant, kms)) ∧
    (∀ s, lookupA kms.sessions sid = some s → (did = s.peer ∨ did = s.initiator) →
      s.status = LinkStatus.RED →
      join_session kms sid did = (Except.error KMSError.sessionCompromised, kms)) := by
  refine ⟨fun h => by simp [join_session, h],
    fun s hs h1 h2 => by simp [join_session, hs, h1, h2],
    fun s hs hor hred => ?_⟩
  have hcond : ¬(did ≠ s.peer ∧ did ≠ s.initiator) := by
    rcases hor with h | h
    · exact fun hc => hc.1 h
    · exact fun hc => hc.2 h
  simp [join_session, hs, hcond, hred]

/-- Claim C9 witness: an unknown id, a non-participant, and a join of the
RED threshold-edge session. -/
theorem join_session_failure_cases_witness :
    join_session dupSt1 "nope" "Alpha" = (Except.error KMSError.sessionNotFound, dupSt1) ∧
    join_session dupSt1 "c1" "Mallory" = (Except.error KMSError.notAParticipant, dupSt1) ∧
    join_session edgeSt "e1" "Bravo" = (Except.error KMSError.sessionCompromised, edgeSt) :=
  ⟨(join_session_failure_cases dupSt1 "nope" "Alpha").1 (by decide),
    (join_session_failure_cases dupSt1 "c1" "Mallory").2.1 c7Session (by decide)
      (by decide) (by decide),
    (join_session_failure_cases edgeSt "e1" "Bravo").2.2 edgeSession (by decide)
      (by decide) (by decide)⟩

/-- Claim C10: `invalidate_session` on a stored id returns True, removes the
session record, removes the pairing-index entry keyed by the session's
unordered pair unconditionally (whatever session id that entry currently
references), and leaves every other session, every other index entry, and
all counters untouched; on an unknown id it returns False and changes
nothing.  (The transient `status = RED` write happens on the record just
before deletion and is unobservable in the resulting state.) -/
theorem invalidate_session_spec (kms : KMS) (sid : String) :
    (lookupA kms.sessions sid = none → invalidate_session kms sid = (false, kms)) ∧
    (∀ s, lookupA kms.sessions sid = some s →
      (invalidate_session kms sid).1 = true ∧
      lookupA (invalidate_session kms sid).2.sessions sid = none ∧
      lookupA (invalidate_session kms sid).2.pair_index (pairKey s.initiator s.peer) = none ∧
      (∀ sid2, sid2 ≠ sid →
        lookupA (invalidate_session kms sid).2.sessions sid2 = lookupA kms.sessions sid2) ∧
      (∀ pr, pr ≠ pairKey s.initiator s.peer →
        lookupA (invalidate_session kms sid).2.pair_index pr = lookupA kms.pair_index pr) ∧
      (invalidate_session kms sid).2.metrics.total_sessions = kms.metrics.total_sessions ∧
      (invalidate_session kms sid).2.metrics.total_keys_issued
        = kms.metrics.total_keys_issued ∧
      (invalidate_session kms sid).2.metrics.attacks_detected
        = kms.metrics.attacks_detected ∧
      (invalidate_session kms sid).2.metrics.link_status = kms.metrics.link_status) := by
  constructor
  · intro h; simp [invalidate_session, h]
  · intro s hs
    simp only [invalidate_session, hs]
    exact ⟨by simp, lookupA_eraseA_self _ _, lookupA_eraseA_self _ _,
      fun sid2 h2 => lookupA_eraseA_ne _ h2,
      fun pr h2 => lookupA_eraseA_ne _ h2, by simp, by simp, by simp, by simp⟩

/-- Claim C10 witness: invalidating an unknown id changes nothing;
invalidating the old session `c1` of `dupSt3` removes it, pops the index
entry for {Alpha, Bravo} (which at that point references the newer session
`c2`), and leaves `c2` stored. -/
theorem invalidate_session_spec_witness :
    invalidate_session KMS.initDefault "ghost" = (false, KMS.initDefault) ∧
    (invalidate_session dupSt3 "c1").1 = true ∧
    lookupA (invalidate_session dupSt3 "c1").2.sessions "c1" = none ∧
    lookupA (invalidate_session dupSt3 "c1").2.pair_index
      (pairKey c10Session.initiator c10Session.peer) = none ∧
    lookupA (invalidate_session dupSt3 "c1").2.sessions "c2" = lookupA dupSt3.sessions "c2" :=
  ⟨(invalidate_session_spec KMS.initDefault "ghost").1 (by decide),
    ((invalidate_session_spec dupSt3 "c1").2 c10Session (by decide)).1,
    ((invalidate_session_spec dupSt3 "c1").2 c10Session (by decide)).2.1,
    ((invalidate_session_spec dupSt3 "c1").2 c10Session (by decide)).2.2.1,
    ((invalidate_session_spec dupSt3 "c1").2 c10Session (by decide)).2.2.2.1 "c2" (by decide)⟩

/-- Claim C4: whenever `create_session` reaches the channel simulator and the
simulated channel reports interception or an error rate above the manager's
threshold, the call fails with an error carrying the measured error rate,
increments attacks-detected by exactly 1, sets the aggregate status RED, and
stores nothing: the session store, pairing index, total-sessions counter and
total-keys-issued counter are unchanged. -/
theorem create_session_attack_rejected (kms : KMS) (i p : String) (n : Nat)
    (pq : Bool) (d : BB84Draws) (fid : String) (ky : List Nat)
    (hrun : runsChannel kms i p = true)
    (hatk : (simulate_bb84 n kms.eve_active d).2.2 = true ∨
      fracLt kms.qber_threshold (bb84Qber n kms.eve_active d) = true) :
    (create_session kms i p n pq d fid ky).1 =
      Except.error (KMSError.linkCompromised (bb84Qber n kms.eve_active d)) ∧
    (create_session kms i p n pq d fid ky).2.sessions = kms.sessions ∧
    (create_session kms i p n pq d fid ky).2.pair_index = kms.pair_index ∧
    (create_session kms i p n pq d fid ky).2.metrics.total_sessions
      = kms.metrics.total_sessions ∧
    (create_session kms i p n pq d fid ky).2.metrics.total_keys_issued
      = kms.metrics.total_keys_issued ∧
    (create_session kms i p n pq d fid ky).2.metrics.attacks_detected
      = kms.metrics.attacks_detected + 1 ∧
    (create_session kms i p n pq d fid ky).2.metrics.link_status = LinkStatus.RED := by
  have hcond : (fracLt QBER_SECURITY_THRESHOLD (bb84Qber n kms.eve_active d) ||
      fracLt kms.qber_threshold (bb84Qber n kms.eve_active d)) = true := by
    rw [Bool.or_eq_true]
    rcases hatk with h | h
    · exact Or.inl h
    · exact Or.inr h
  rw [create_session_runs hrun, createSessionRun, if_pos hcond]
  exact ⟨rfl, rfl, rfl, rfl, rfl, rfl, rfl⟩

/-- Claim C4 witness: a fresh service, two qubits that sift to nothing: QBER
`1.0`, interception reported, create rejected with all stated effects. -/
theorem create_session_attack_rejected_witness :
    (create_session KMS.initDefault "Alpha" "Bravo" 2 false noSiftDraws "f1" []).1 =
      Except.error (KMSError.linkCompromised
        (bb84Qber 2 KMS.initDefault.eve_active noSiftDraws)) ∧
    (create_session KMS.initDefault "Alpha" "Bravo" 2 false noSiftDraws "f1" []).2.sessions
      = KMS.initDefault.sessions ∧
    (create_session KMS.initDefault "Alpha" "Bravo" 2 false noSiftDraws "f1" []).2.pair_index
      = KMS.initDefault.pair_index ∧
    (create_session KMS.initDefault "Alpha" "Bravo" 2 false noSiftDraws
        "f1" []).2.metrics.total_sessions = KMS.initDefault.metrics.total_sessions ∧
    (create_session KMS.initDefault "Alpha" "Bravo" 2 false noSiftDraws
        "f1" []).2.metrics.total_keys_issued = KMS.initDefault.metrics.total_keys_issued ∧
    (create_session KMS.initDefault "Alpha" "Bravo" 2 false noSiftDraws
        "f1" []).2.metrics.attacks_detected = KMS.initDefault.metrics.attacks_detected + 1 ∧
    (create_session KMS.initDefault "Alpha" "Bravo" 2 false noSiftDraws
        "f1" []).2.metrics.link_status = LinkStatus.RED :=
  create_session_attack_rejected KMS.initDefault "Alpha" "Bravo" 2 false noSiftDraws "f1" []
    (by decide) (Or.inl (by decide))

/-- Claim C6 (amended): on every create attempt that runs the channel
simulator of a default-threshold manager, the aggregate status afterwards is
GREEN when the measured error rate is below `5/100`, YELLOW when it is in
`[5/100, 11/100)`, left unchanged when it equals `11/100` exactly (the code
updates the status only for strictly smaller rates), and RED with the
attempt rejected when it exceeds `11/100`.  The claim's inclusive YELLOW
band at the threshold is refuted by the counterexample. -/
theorem create_session_status_rule (kms : KMS) (i p : String) (n : Nat) (pq : Bool)
    (d : BB84Draws) (fid : String) (ky : List Nat)
    (hthr : kms.qber_threshold = QBER_SECURITY_THRESHOLD)
    (hrun : runsChannel kms i p = true) :
    (fracLt (bb84Qber n kms.eve_active d) ⟨5, 100⟩ = true →
      (create_session kms i p n pq d fid ky).2.metrics.link_status = LinkStatus.GREEN ∧
      (create_session kms i p n pq d fid ky).1.toOption.isSome = true) ∧
    (fracLt (bb84Qber n kms.eve_active d) ⟨5, 100⟩ = false →
      fracLt (bb84Qber n kms.eve_active d) QBER_SECURITY_THRESHOLD = true →
      (create_session kms i p n pq d fid ky).2.metrics.link_status = LinkStatus.YELLOW ∧
      (create_session kms i p n pq d fid ky).1.toOption.isSome = true) ∧
    (fracLt (bb84Qber n kms.eve_active d) QBER_SECURITY_THRESHOLD = false →
      fracLt QBER_SECURITY_THRESHOLD (bb84Qber n kms.eve_active d) = false →
      (create_session kms i p n pq d fid ky).2.metrics.link_status
        = kms.metrics.link_status ∧
      (create_session kms i p n pq d fid ky).1.toOption.isSome = true) ∧
    (fracLt QBER_SECURITY_THRESHOLD (bb84Qber n kms.eve_active d) = true →
      (create_session kms i p n pq d fid ky).2.metrics.link_status = LinkStatus.RED ∧
      (create_session kms i p n pq d fid ky).1 =
        Except.error (KMSError.linkCompromised (bb84Qber n kms.eve_active d))) := by
  rw [create_session_runs hrun]
  refine ⟨?_, ?_, ?_, ?_⟩
  · intro h5
    have hgt : fracLt QBER_SECURITY_THRESHOLD (bb84Qber n kms.eve_active d) = false := by
      simp only [fracLt, QBER_SECURITY_THRESHOLD, decide_eq_true_eq,
        decide_eq_false_iff_not] at h5 ⊢
      omega
    have hcond : (fracLt QBER_SECURITY_THRESHOLD (bb84Qber n kms.eve_active d) ||
        fracLt kms.qber_threshold (bb84Qber n kms.eve_active d)) = false := by
      rw [hthr, hgt, Bool.or_self]
    rw [createSessionRun, hcond]
    constructor
    · show (createdState kms i p n pq d fid ky).metrics.link_status = LinkStatus.GREEN
      show newSessionStatus kms (bb84Qber n kms.eve_active d) = LinkStatus.GREEN
      rw [newSessionStatus, if_pos h5]
    · rfl
  · intro h5 h11
    have hgt : fracLt QBER_SECURITY_THRESHOLD (bb84Qber n kms.eve_active d) = false := by
      simp only [fracLt, QBER_SECURITY_THRESHOLD, decide_eq_true_eq,
        decide_eq_false_iff_not] at h11 ⊢
      omega
    have hcond : (fracLt QBER_SECURITY_THRESHOLD (bb84Qber n kms.eve_active d) ||
        fracLt kms.qber_threshold (bb84Qber n kms.eve_active d)) = false := by
      rw [hthr, hgt, Bool.or_self]
    rw [createSessionRun, hcond]
    constructor
    · show newSessionStatus kms (bb84Qber n kms.eve_active d) = LinkStatus.YELLOW
      rw [newSessionStatus, if_neg (by rw [h5]; exact Bool.false_ne_true),
        if_pos (by rw [hthr]; exact h11)]
    · rfl
  · intro h11 hgt
    have h5 : fracLt (bb84Qber n kms.eve_active d) ⟨5, 100⟩ = false := by
      simp only [fracLt, QBER_SECURITY_THRESHOLD, decide_eq_true_eq,
        decide_eq_false_iff_not] at h11 ⊢
      omega
    have hcond : (fracLt QBER_SECURITY_THRESHOLD (bb84Qber n kms.eve_active d) ||
        fracLt kms.qber_threshold (bb84Qber n kms.eve_active d)) = false := by
      rw [hthr, hgt, Bool.or_self]
    rw [createSessionRun, hcond]
    constructor
    · show newSessionStatus kms (bb84Qber n kms.eve_active d) = kms.metrics.link_status
      rw [newSessionStatus, if_neg (by rw [h5]; exact Bool.false_ne_true),
        if_neg (by rw [hthr, h11]; exact Bool.false_ne_true)]
    · rfl
  · intro hgt
    have hcond : (fracLt QBER_SECURITY_THRESHOLD (bb84Qber n kms.eve_active d) ||
        fracLt kms.qber_threshold (bb84Qber n kms.eve_active d)) = true := by
      rw [Bool.or_eq_true]; exact Or.inl hgt
    rw [createSessionRun, if_pos hcond]
    exact ⟨rfl, rfl⟩

/-- Claim C6 witness: a clean one-qubit exchange (QBER `0/1 < 5/100`) on a
fresh default service turns the status GREEN with the attempt accepted. -/
theorem create_session_status_rule_witness :
    (create_session KMS.initDefault "Alpha" "Bravo" 1 false cleanDraws
        "g1" []).2.metrics.link_status = LinkStatus.GREEN ∧
    (create_session KMS.initDefault "Alpha" "Bravo" 1 false cleanDraws
        "g1" []).1.toOption.isSome = true :=
  (create_session_status_rule KMS.initDefault "Alpha" "Bravo" 1 false cleanDraws "g1" []
    rfl (by decide)).1 (by decide)

/-- Claim C6 counterexample: on the reachable RED state `eveSt2`, a create
attempt measuring QBER exactly `11/100` — inside the claim's inclusive
YELLOW band `0.05 ≤ q ≤ threshold` — is accepted but leaves the aggregate
status RED, not YELLOW. -/
theorem create_session_status_rule_cex :
    Reachable eveSt2 ∧
    RealDraws eveSt2.eve_active edgeDraws ∧
    eveSt2.qber_threshold = QBER_SECURITY_THRESHOLD ∧
    runsChannel eveSt2 "Alpha" "Bravo" = true ∧
    bb84Qber 100 eveSt2.eve_active edgeDraws = ⟨11, 100⟩ ∧
    fracLt (bb84Qber 100 eveSt2.eve_active edgeDraws) ⟨5, 100⟩ = false ∧
    fracLt QBER_SECURITY_THRESHOLD (bb84Qber 100 eveSt2.eve_active edgeDraws) = false ∧
    (create_session eveSt2 "Alpha" "Bravo" 100 false edgeDraws
        "e1" []).1.toOption.isSome = true ∧
    (create_session eveSt2 "Alpha" "Bravo" 100 false edgeDraws
        "e1" []).2.metrics.link_status = LinkStatus.RED := by
  refine ⟨?_, by decide, by decide, by decide, by decide, by decide, by decide,
    by decide, by decide⟩
  exact Reachable.create (Reachable.activate (Reachable.init QBER_SECURITY_THRESHOLD))
    "Probe" "Target" 1 false atkDraws "a1" [] (by decide) rfl

/-- Claim C1 (amended): on a reachable state, if `create_session(A, B)` with
`A ≠ B` succeeds and the returned view's status is not RED, then
`join_session` with that view's session id and device `B` succeeds, returns
a key byte-for-byte identical to the created one, marks the stored session
joined, and increments total-keys-issued by exactly 1.  (Without the
status-not-RED proviso the claim fails; see the counterexample.) -/
theorem create_then_join_same_key (kms : KMS) (A B : String) (n : Nat) (pq : Bool)
    (d : BB84Draws) (fid : String) (ky : List Nat) (v : SessionView) (kms' : KMS)
    (hR : Reachable kms) (hAB : A ≠ B)
    (hc : create_session kms A B n pq d fid ky = (Except.ok v, kms'))
    (hv : v.status ≠ LinkStatus.RED) :
    ∃ w kms2, join_session kms' v.session_id B = (Except.ok w, kms2) ∧
      w.key = v.key ∧ w.joined = true ∧
      (lookupA kms2.sessions v.session_id).map Session.joined = some true ∧
      kms2.metrics.total_keys_issued = kms'.metrics.total_keys_issued + 1 := by
  obtain ⟨hidWF, hpairWF⟩ := reachable_structWF hR
  rcases hidx : lookupA kms.pair_index (pairKey A B) with _ | sid
  · simp only [create_session, hidx] at hc
    exact join_after_createRun hc hv
  · rcases hses : lookupA kms.sessions sid with _ | ex
    · simp only [create_session, hidx, hses] at hc
      rw [Prod.mk.injEq] at hc
      exact absurd hc.1 (by simp)
    · by_cases hj : ex.joined = true
      · simp only [create_session, hidx, hses, hj, if_true] at hc
        exact join_after_createRun hc hv
      · simp only [create_session, hidx, hses] at hc
        rw [if_neg hj, Prod.mk.injEq, Except.ok.injEq] at hc
        obtain ⟨hv1, hst⟩ := hc
        subst hst
        subst hv1
        have hexid : ex.session_id = sid := by
          simpa using hidWF _ (lookupA_mem hses)
        have hlook2 : lookupA kms.sessions (sessionToDict ex).session_id = some ex := by
          show lookupA kms.sessions ex.session_id = some ex
          rw [hexid]
          exact hses
        obtain ⟨s, hsl, hp⟩ := hpairWF _ (lookupA_mem hidx)
        have hsx : s = ex := by
          have hx : lookupA kms.sessions sid = some s := hsl
          rw [hses] at hx
          exact (Option.some.inj hx).symm
        subst hsx
        have hBmem : B ∈ pairKey s.initiator s.peer := by
          rw [hp]
          exact mem_pairKey_right A B
        have hBor : B = s.peer ∨ B = s.initiator := by
          rcases mem_pairKey_iff.mp hBmem with h | h
          · exact Or.inr h
          · exact Or.inl h
        have hj2 := join_session_success kms (sessionToDict s).session_id B s hlook2 hBor hv
        refine ⟨_, _, hj2, rfl, rfl, ?_, rfl⟩
        show (lookupA (insertA kms.sessions (sessionToDict s).session_id
            { s with joined := true }) (sessionToDict s).session_id).map
          Session.joined = some true
        rw [lookupA_insertA_self]
        rfl

/-- Claim C1 witness: a clean happy-path create on a fresh service, followed
by Bravo's join. -/
theorem create_then_join_same_key_witness :
    ∃ w kms2, join_session w1Out.2 w1View.session_id "Bravo" = (Except.ok w, kms2) ∧
      w.key = w1View.key ∧ w.joined = true ∧
      (lookupA kms2.sessions w1View.session_id).map Session.joined = some true ∧
      kms2.metrics.total_keys_issued = w1Out.2.metrics.total_keys_issued + 1 :=
  create_then_join_same_key KMS.initDefault "Alpha" "Bravo" 1 false cleanDraws "w1" []
    w1View w1Out.2 (Reachable.init QBER_SECURITY_THRESHOLD) (by decide) (by decide)
    (by decide)

/-- Claim C1 counterexample: on the reachable RED state `eveSt2`, a
create_session for the distinct pair (Charlie, Delta) succeeds — the measured
QBER is exactly the threshold, so the attempt is accepted and the session is
stored with the inherited RED status — yet the join the claim promises fails
with a compromised-session error. -/
theorem create_then_join_same_key_cex :
    Reachable eveSt2 ∧
    RealDraws eveSt2.eve_active edgeDraws ∧
    ("Charlie" : String) ≠ "Delta" ∧
    (create_session eveSt2 "Charlie" "Delta" 100 false edgeDraws "e2" []).1.toOption.map
      SessionView.session_id = some "e2" ∧
    (join_session (create_session eveSt2 "Charlie" "Delta" 100 false edgeDraws "e2" []).2
        "e2" "Delta").1 = Except.error KMSError.sessionCompromised := by
  refine ⟨?_, by decide, by decide, by decide, by decide⟩
  exact Reachable.create (Reachable.activate (Reachable.init QBER_SECURITY_THRESHOLD))
    "Probe" "Target" 1 false atkDraws "a1" [] (by decide) rfl

end QSTCS
